import Mathlib

/-!
Shallow embedding of `src/backuptool.py` (class `BackupTool`): a
content-addressed, deduplicating backup engine over a SQLite database with
three tables (`snapshots`, `files`, `file_data`) plus the filesystem trees it
reads and writes.

Modelling decisions, each tied to a line of the source:
* Bytes are `List Nat`; a digest is also a byte/character sequence.  The
  SHA-256 hasher (`_hash_file`, lines 55-61, and `hashlib.sha256` in `check`,
  line 130) is a parameter `hasher : Bytes → Digest`; theorems that need
  collision-freeness assume `Function.Injective hasher`, which is the
  content-addressing contract the spec assigns to SHA-256.
* The `snapshots` table is declared `INTEGER PRIMARY KEY AUTOINCREMENT`
  (line 30), so SQLite keeps a monotone per-table sequence in
  `sqlite_sequence` and never reuses an id even after the row with the
  largest id is deleted.  The field `DB.seq` models that sequence;
  `cursor.lastrowid` after the insert at line 67 is `seq + 1`.
* Tables are lists of rows in insertion order; a plain `SELECT`/scan yields
  rows in rowid (= insertion) order, which is how SQLite enumerates these
  tables, including the `GROUP BY s.id` of `list_snapshots` (line 91).
* `Path.rglob("*")` (line 71) on a path that is missing or is not a
  directory yields nothing (pathlib's selector returns an empty iterator
  when the root is not a directory); on a directory it yields the regular
  files of the tree.  A source tree is `PathKind`: missing, a regular file,
  or a directory carrying its regular files as `(relative path, bytes)`
  pairs in enumeration order.
* Each database write executed by `snapshot` is also recorded as a
  `WEvent` so that statements about write order (which insert happens
  before which) can be made; the final `DB` is the committed state
  (`conn.commit()`, line 84).
* `restore` and `check` are passed the database and return it alongside
  their filesystem/report results; their bodies only read it, mirroring
  that the Python bodies execute only `SELECT` statements.
-/

/-- Raw byte content of a file or blob. -/
abbrev Bytes : Type := List Nat

/-- A content digest (the hex string of line 61, modelled as a sequence). -/
abbrev Digest : Type := List Nat

/-- One row of the `snapshots` table (lines 28-34): `(id, timestamp)`. -/
structure SnapRow where
  id : Nat
  timestamp : String
  deriving Repr, DecidableEq

/-- One row of the `files` table (lines 35-44):
`(snapshot_id, path, hash, size)`. -/
structure FileRow where
  snapshot_id : Nat
  path : String
  hash : Digest
  size : Nat
  deriving Repr, DecidableEq

/-- One row of the `file_data` table (lines 45-52): `(hash, content, size)`
with `hash` the primary key. -/
structure BlobRow where
  hash : Digest
  content : Bytes
  size : Nat
  deriving Repr, DecidableEq

/-- The persisted store: the three tables in insertion order, plus the
`sqlite_sequence` counter for the AUTOINCREMENT id of `snapshots`
(`seq` = largest snapshot id ever allocated). -/
structure DB where
  seq : Nat
  snapshots : List SnapRow
  files : List FileRow
  file_data : List BlobRow
  deriving Repr, DecidableEq

/-- The freshly initialised store of `_init_db` (lines 23-53). -/
def DB.empty : DB := ⟨0, [], [], []⟩

/-- A database write performed during `snapshot`: the snapshot-row insert
(line 67), a `files`-row insert (lines 75-76), or a `file_data` insert
(lines 81-82). -/
inductive WEvent where
  | insSnap (id : Nat) (timestamp : String)
  | insFile (snapshot_id : Nat) (path : String) (hash : Digest) (size : Nat)
  | insBlob (hash : Digest) (content : Bytes) (size : Nat)
  deriving Repr, DecidableEq

/-- A source path as seen by `snapshot`: missing, a regular file, or a
directory whose regular files are listed as `(relative path, bytes)` in
`rglob` enumeration order. -/
inductive PathKind where
  | missing
  | file (content : Bytes)
  | dir (tree : List (String × Bytes))
  deriving Repr, DecidableEq

/-- The regular files produced by `target_directory.rglob("*")` filtered by
`is_file()` (lines 71-72): empty unless the root is a directory. -/
def rglobFiles : PathKind → List (String × Bytes)
  | .dir t => t
  | _ => []

/-- A destination directory's regular files, as the map
`relative path → bytes` (`none` = no file at that path). -/
abbrev FS : Type := String → Option Bytes

/-- A destination directory with no files yet. -/
def fsEmpty : FS := fun _ => none

/-- Write `c` at path `p`, "overwriting any existing file"
(`open(target_path, 'wb')`, line 111). -/
def fsWrite (fs : FS) (p : String) (c : Bytes) : FS :=
  fun q => if q == p then some c else fs q

/-- The content of the regular file at relative path `p` of a source tree
(first entry wins, matching a walk that yields each path once). -/
def treeLookup (t : List (String × Bytes)) (p : String) : Option Bytes :=
  (t.find? (fun e => e.1 == p)).map (fun e => e.2)

/-- The dedup insert of lines 78-82: `SELECT hash FROM file_data WHERE
hash = ?`; insert `(hash, content, size)` only when absent.  Returns the
new table and whether a row was inserted. -/
def put_if_absent (fd : List BlobRow) (h : Digest) (c : Bytes) (sz : Nat) :
    List BlobRow × Bool :=
  if fd.any (fun b => b.hash == h) then (fd, false)
  else (fd ++ [⟨h, c, sz⟩], true)

/-- Accumulator of the `for file in target_directory.rglob("*")` loop
(lines 71-82): current database, write events so far, and `total_size`. -/
structure SnapAcc where
  db : DB
  tr : List WEvent
  total : Nat
  deriving Repr, DecidableEq

/-- One iteration of the snapshot loop for a regular file `(path, bytes)`
(lines 72-82): hash the file, insert the `files` row, then the dedup
`file_data` insert. -/
def snapStep (hasher : Bytes → Digest) (sid : Nat) (a : SnapAcc)
    (pc : String × Bytes) : SnapAcc :=
  let h := hasher pc.2
  let sz := pc.2.length
  let d1 : DB := { a.db with files := a.db.files ++ [⟨sid, pc.1, h, sz⟩] }
  let pia := put_if_absent d1.file_data h pc.2 sz
  { db := { d1 with file_data := pia.1 },
    tr := a.tr ++ (if pia.2 then
        [WEvent.insFile sid pc.1 h sz, WEvent.insBlob h pc.2 sz]
      else [WEvent.insFile sid pc.1 h sz]),
    total := a.total + sz }

/-- State just after the `INSERT INTO snapshots` of line 67: the next
AUTOINCREMENT id `db.seq + 1` is allocated and its row appended; no file
has been walked yet. -/
def snapInit (db : DB) (ts : String) : SnapAcc where
  db := { db with seq := db.seq + 1, snapshots := db.snapshots ++ [⟨db.seq + 1, ts⟩] }
  tr := [WEvent.insSnap (db.seq + 1) ts]
  total := 0

/-- `BackupTool.snapshot` (lines 63-86): allocate the next snapshot id,
insert the snapshot row, walk the tree, and return
`(committed database, snapshot id, write events of this call)`. -/
def snapshot (hasher : Bytes → Digest) (db : DB) (ts : String)
    (target : PathKind) : DB × Nat × List WEvent :=
  let sid := db.seq + 1
  let a := (rglobFiles target).foldl (snapStep hasher sid) (snapInit db ts)
  (a.db, sid, a.tr)

/-- The summary line printed at the end of `restore` (line 113). -/
def restoreMsg (sid : Nat) : String :=
  "Snapshot " ++ toString sid ++ " restored."

/-- One iteration of the restore loop (lines 105-112): fetch the blob by
hash; if present write its bytes at the entry's path, otherwise do
nothing. -/
def restoreStep (db : DB) (fs : FS) (e : String × Digest) : FS :=
  match db.file_data.find? (fun b => b.hash == e.2) with
  | some b => fsWrite fs e.1 b.content
  | none => fs

/-- `BackupTool.restore` (lines 97-113): select the snapshot's file rows,
write each entry's blob into the destination, print one summary line.
Returns `(database, destination files, printed lines)`; the database is
returned unchanged because the body only runs `SELECT`s. -/
def restore (db : DB) (sid : Nat) (dest : FS) : DB × FS × List String :=
  let entries := (db.files.filter (fun f => f.snapshot_id == sid)).map
    (fun f => (f.path, f.hash))
  (db, entries.foldl (restoreStep db) dest, [restoreMsg sid])

/-- `BackupTool.prune` (lines 115-122): delete the snapshot row (the
`ON DELETE CASCADE` of line 41 removes its `files` rows) and delete the
`files` rows with that snapshot id; `file_data` and the AUTOINCREMENT
sequence are untouched. -/
def prune (db : DB) (sid : Nat) : DB :=
  { db with
    snapshots := db.snapshots.filter (fun s => !(s.id == sid)),
    files := db.files.filter (fun f => !(f.snapshot_id == sid)) }

/-- Result of `check`: the success line or the first corruption line
(lines 131-133). -/
inductive CheckResult where
  | ok
  | corrupted (h : Digest)
  deriving Repr, DecidableEq

/-- The loop of `check` (lines 129-132): re-hash each blob's bytes in scan
order and stop at the first mismatch. -/
def checkLoop (hasher : Bytes → Digest) : List BlobRow → CheckResult
  | [] => .ok
  | b :: rest =>
    if hasher b.content == b.hash then checkLoop hasher rest
    else .corrupted b.hash

/-- `BackupTool.check` (lines 124-133).  Returns the database (unchanged:
the body only runs a `SELECT`) and the verdict. -/
def check (hasher : Bytes → Digest) (db : DB) : DB × CheckResult :=
  (db, checkLoop hasher db.file_data)

/-- `BackupTool.list_snapshots` (lines 88-95): the rows
`(id, timestamp, COALESCE(SUM(size), 0))` of the `LEFT JOIN ... GROUP BY
s.id` query, one per snapshot, in the scan order of `snapshots`. -/
def list_snapshots (db : DB) : List (Nat × String × Nat) :=
  db.snapshots.map (fun s =>
    (s.id, s.timestamp,
      ((db.files.filter (fun f => f.snapshot_id == s.id)).map
        (fun f => f.size)).sum))

/-- A store-mutating call of the tool, for statements about the store's
lifetime: `snapshot`, `prune`, `restore`, or `check`. -/
inductive Op where
  | snap (ts : String) (target : PathKind)
  | pruneOp (sid : Nat)
  | restoreOp (sid : Nat) (dest : FS)
  | checkOp

/-- Effect of one call on the persisted store. -/
def applyOp (hasher : Bytes → Digest) (db : DB) : Op → DB
  | .snap ts target => (snapshot hasher db ts target).1
  | .pruneOp sid => prune db sid
  | .restoreOp sid dest => (restore db sid dest).1
  | .checkOp => (check hasher db).1

/-- Content-addressing invariant of the blob table: each stored blob's key
is the digest of its stored bytes. -/
def ContentAddressed (hasher : Bytes → Digest) (db : DB) : Prop :=
  ∀ b ∈ db.file_data, b.hash = hasher b.content

/-- Digest uniqueness: at most one `file_data` row per digest. -/
def UniqueBlobs (db : DB) : Prop :=
  (db.file_data.map (fun b => b.hash)).Nodup

/-- Every id stored in `snapshots` or referenced by `files` has already
been allocated by the AUTOINCREMENT sequence. -/
def SeqBound (db : DB) : Prop :=
  (∀ s ∈ db.snapshots, s.id ≤ db.seq) ∧
    (∀ f ∈ db.files, f.snapshot_id ≤ db.seq)

/-- Referential integrity of the committed store: every `files` row's
digest names an existing blob. -/
def RefIntegrity (db : DB) : Prop :=
  ∀ f ∈ db.files, ∃ b ∈ db.file_data, b.hash = f.hash

/-- The claimed write order inside one `snapshot` call, as a property of
its write-event list: at the moment each `files`-row insert happens, its
digest already names a blob — either one present in the store before the
call or one inserted by an earlier event of the call. -/
def BlobBeforeFile (db : DB) (tr : List WEvent) : Prop :=
  ∀ pre s p h sz post, tr = pre ++ WEvent.insFile s p h sz :: post →
    (∃ b ∈ db.file_data, b.hash = h) ∨ ∃ c sz2, WEvent.insBlob h c sz2 ∈ pre

/-- The order the code actually uses, as a relation between consecutive
write events: a `file_data` insert may only appear immediately after the
`files` insert of the file whose content it stores. -/
def fileThenBlob : WEvent → WEvent → Prop := fun e1 e2 =>
  match e2 with
  | .insBlob h _ sz => ∃ s p, e1 = WEvent.insFile s p h sz
  | _ => True

/-- A store whose snapshot 1 has one entry backed by a stored blob
(path `good`, digest `[7]`) and one entry whose digest `[9]` names no
blob — the "missing blob" corruption scenario of `restore`. -/
def dbDangling : DB :=
  ⟨1, [⟨1, "t"⟩],
    [⟨1, "good", [7], 1⟩, ⟨1, "bad", [9], 1⟩],
    [⟨[7], [7], 1⟩]⟩

/-! ## Structure of the snapshot loop -/

theorem snapStep_files (hasher : Bytes → Digest) (sid : Nat) (a : SnapAcc)
    (pc : String × Bytes) :
    ((snapStep hasher sid a pc).db).files
      = a.db.files ++ [⟨sid, pc.1, hasher pc.2, pc.2.length⟩] := rfl

theorem snapStep_file_data (hasher : Bytes → Digest) (sid : Nat) (a : SnapAcc)
    (pc : String × Bytes) :
    ((snapStep hasher sid a pc).db).file_data
      = (put_if_absent a.db.file_data (hasher pc.2) pc.2 pc.2.length).1 := rfl

theorem snapStep_snapshots (hasher : Bytes → Digest) (sid : Nat) (a : SnapAcc)
    (pc : String × Bytes) :
    ((snapStep hasher sid a pc).db).snapshots = a.db.snapshots := rfl

theorem snapStep_seq (hasher : Bytes → Digest) (sid : Nat) (a : SnapAcc)
    (pc : String × Bytes) :
    ((snapStep hasher sid a pc).db).seq = a.db.seq := rfl

theorem snapStep_tr (hasher : Bytes → Digest) (sid : Nat) (a : SnapAcc)
    (pc : String × Bytes) :
    (snapStep hasher sid a pc).tr = a.tr ++
      (if (put_if_absent a.db.file_data (hasher pc.2) pc.2 pc.2.length).2 then
        [WEvent.insFile sid pc.1 (hasher pc.2) pc.2.length,
         WEvent.insBlob (hasher pc.2) pc.2 pc.2.length]
      else [WEvent.insFile sid pc.1 (hasher pc.2) pc.2.length]) := rfl

theorem foldl_snapStep_snapshots (hasher : Bytes → Digest) (sid : Nat) :
    ∀ (T : List (String × Bytes)) (a : SnapAcc),
      ((T.foldl (snapStep hasher sid) a).db).snapshots = a.db.snapshots
  | [], _ => rfl
  | pc :: T, a => by
    rw [List.foldl_cons, foldl_snapStep_snapshots hasher sid T,
      snapStep_snapshots]

theorem foldl_snapStep_seq (hasher : Bytes → Digest) (sid : Nat) :
    ∀ (T : List (String × Bytes)) (a : SnapAcc),
      ((T.foldl (snapStep hasher sid) a).db).seq = a.db.seq
  | [], _ => rfl
  | pc :: T, a => by
    rw [List.foldl_cons, foldl_snapStep_seq hasher sid T, snapStep_seq]

theorem foldl_snapStep_files (hasher : Bytes → Digest) (sid : Nat) :
    ∀ (T : List (String × Bytes)) (a : SnapAcc),
      ((T.foldl (snapStep hasher sid) a).db).files = a.db.files
        ++ T.map (fun pc => ⟨sid, pc.1, hasher pc.2, pc.2.length⟩)
  | [], a => by simp
  | pc :: T, a => by
    rw [List.foldl_cons, foldl_snapStep_files hasher sid T, snapStep_files,
      List.map_cons, List.append_assoc, List.singleton_append]

theorem put_if_absent_mono {fd : List BlobRow} {h : Digest} {c : Bytes}
    {sz : Nat} {b : BlobRow} (hb : b ∈ fd) :
    b ∈ (put_if_absent fd h c sz).1 := by
  unfold put_if_absent
  split
  · exact hb
  · exact List.mem_append_left _ hb

theorem snapStep_fd_mono {hasher : Bytes → Digest} {sid : Nat} {a : SnapAcc}
    {pc : String × Bytes} {b : BlobRow} (hb : b ∈ a.db.file_data) :
    b ∈ ((snapStep hasher sid a pc).db).file_data := by
  rw [snapStep_file_data]
  exact put_if_absent_mono hb

theorem foldl_snapStep_fd_mono (hasher : Bytes → Digest) (sid : Nat)
    {b : BlobRow} :
    ∀ (T : List (String × Bytes)) (a : SnapAcc), b ∈ a.db.file_data →
      b ∈ ((T.foldl (snapStep hasher sid) a).db).file_data
  | [], _, hb => hb
  | pc :: T, a, hb => by
    rw [List.foldl_cons]
    exact foldl_snapStep_fd_mono hasher sid T _ (snapStep_fd_mono hb)

theorem put_if_absent_present (fd : List BlobRow) (h : Digest) (c : Bytes)
    (sz : Nat) : ∃ b ∈ (put_if_absent fd h c sz).1, b.hash = h := by
  unfold put_if_absent
  split
  · next hany =>
    obtain ⟨b, hb, hbh⟩ := List.any_eq_true.mp hany
    exact ⟨b, hb, by simpa using hbh⟩
  · exact ⟨⟨h, c, sz⟩, List.mem_append_right _ (List.mem_singleton.mpr rfl),
      rfl⟩

theorem foldl_snapStep_present (hasher : Bytes → Digest) (sid : Nat) :
    ∀ (T : List (String × Bytes)) (a : SnapAcc) (pc : String × Bytes),
      pc ∈ T →
      ∃ b ∈ ((T.foldl (snapStep hasher sid) a).db).file_data,
        b.hash = hasher pc.2
  | [], _, _, hpc => absurd hpc (List.not_mem_nil _)
  | q :: T, a, pc, hpc => by
    rw [List.foldl_cons]
    rcases List.mem_cons.mp hpc with hq | hT
    · subst hq
      obtain ⟨b, hb, hbh⟩ := put_if_absent_present a.db.file_data
        (hasher pc.2) pc.2 pc.2.length
      refine ⟨b, foldl_snapStep_fd_mono hasher sid T _ ?_, hbh⟩
      rw [snapStep_file_data]
      exact hb
    · exact foldl_snapStep_present hasher sid T _ pc hT

theorem put_if_absent_CA {hasher : Bytes → Digest} {fd : List BlobRow}
    {c : Bytes} {sz : Nat}
    (hCA : ∀ b ∈ fd, b.hash = hasher b.content) :
    ∀ b ∈ (put_if_absent fd (hasher c) c sz).1, b.hash = hasher b.content := by
  unfold put_if_absent
  split
  · exact hCA
  · intro b hb
    rcases List.mem_append.mp hb with hfd | hnew
    · exact hCA b hfd
    · rw [List.mem_singleton.mp hnew]

theorem foldl_snapStep_CA (hasher : Bytes → Digest) (sid : Nat) :
    ∀ (T : List (String × Bytes)) (a : SnapAcc),
      (∀ b ∈ a.db.file_data, b.hash = hasher b.content) →
      ∀ b ∈ ((T.foldl (snapStep hasher sid) a).db).file_data,
        b.hash = hasher b.content
  | [], _, hCA => hCA
  | pc :: T, a, hCA => by
    rw [List.foldl_cons]
    refine foldl_snapStep_CA hasher sid T _ ?_
    rw [snapStep_file_data]
    exact put_if_absent_CA hCA

theorem put_if_absent_nodup {fd : List BlobRow} {h : Digest} {c : Bytes}
    {sz : Nat} (hU : (fd.map (fun b => b.hash)).Nodup) :
    (((put_if_absent fd h c sz).1).map (fun b => b.hash)).Nodup := by
  unfold put_if_absent
  split
  · exact hU
  · next hany =>
    rw [List.map_append, List.map_singleton]
    rw [List.nodup_append]
    refine ⟨hU, List.nodup_singleton _, ?_⟩
    intro x hx hx1
    rw [List.mem_singleton.mp hx1] at hx
    obtain ⟨b, hb, hbh⟩ := List.mem_map.mp hx
    exact absurd (by simpa using hbh)
      (by simpa using List.any_eq_false.mp (Bool.eq_false_iff.mpr hany) b hb)

theorem foldl_snapStep_nodup (hasher : Bytes → Digest) (sid : Nat) :
    ∀ (T : List (String × Bytes)) (a : SnapAcc),
      ((a.db.file_data).map (fun b => b.hash)).Nodup →
      ((((T.foldl (snapStep hasher sid) a).db).file_data).map
        (fun b => b.hash)).Nodup
  | [], _, hU => hU
  | pc :: T, a, hU => by
    rw [List.foldl_cons]
    refine foldl_snapStep_nodup hasher sid T _ ?_
    rw [snapStep_file_data]
    exact put_if_absent_nodup hU

/-! ## Components of the snapshot result -/

theorem snapshot_eq (hasher : Bytes → Digest) (db : DB) (ts : String)
    (target : PathKind) :
    snapshot hasher db ts target =
      (((rglobFiles target).foldl (snapStep hasher (db.seq + 1))
          (snapInit db ts)).db,
        db.seq + 1,
        ((rglobFiles target).foldl (snapStep hasher (db.seq + 1))
          (snapInit db ts)).tr) := rfl

theorem snapshot_sid (hasher : Bytes → Digest) (db : DB) (ts : String)
    (target : PathKind) :
    (snapshot hasher db ts target).2.1 = db.seq + 1 := rfl

theorem snapshot_seq (hasher : Bytes → Digest) (db : DB) (ts : String)
    (target : PathKind) :
    ((snapshot hasher db ts target).1).seq = db.seq + 1 := by
  rw [snapshot_eq]
  exact foldl_snapStep_seq hasher (db.seq + 1) (rglobFiles target)
    (snapInit db ts)

theorem snapshot_snapshots (hasher : Bytes → Digest) (db : DB) (ts : String)
    (target : PathKind) :
    ((snapshot hasher db ts target).1).snapshots
      = db.snapshots ++ [⟨db.seq + 1, ts⟩] := by
  rw [snapshot_eq]
  exact foldl_snapStep_snapshots hasher (db.seq + 1) (rglobFiles target)
    (snapInit db ts)

theorem snapshot_files (hasher : Bytes → Digest) (db : DB) (ts : String)
    (target : PathKind) :
    ((snapshot hasher db ts target).1).files = db.files
      ++ (rglobFiles target).map
        (fun pc => ⟨db.seq + 1, pc.1, hasher pc.2, pc.2.length⟩) := by
  rw [snapshot_eq]
  exact foldl_snapStep_files hasher (db.seq + 1) (rglobFiles target)
    (snapInit db ts)

theorem snapshot_fd_mono (hasher : Bytes → Digest) (db : DB) (ts : String)
    (target : PathKind) {b : BlobRow} (hb : b ∈ db.file_data) :
    b ∈ ((snapshot hasher db ts target).1).file_data := by
  rw [snapshot_eq]
  exact foldl_snapStep_fd_mono hasher (db.seq + 1) (rglobFiles target)
    (snapInit db ts) hb

theorem snapshot_present (hasher : Bytes → Digest) (db : DB) (ts : String)
    (target : PathKind) {pc : String × Bytes} (hpc : pc ∈ rglobFiles target) :
    ∃ b ∈ ((snapshot hasher db ts target).1).file_data,
      b.hash = hasher pc.2 := by
  rw [snapshot_eq]
  exact foldl_snapStep_present hasher (db.seq + 1) (rglobFiles target)
    (snapInit db ts) pc hpc

theorem snapshot_CA (hasher : Bytes → Digest) (db : DB) (ts : String)
    (target : PathKind) (hCA : ContentAddressed hasher db) :
    ContentAddressed hasher (snapshot hasher db ts target).1 := by
  rw [ContentAddressed, snapshot_eq]
  exact foldl_snapStep_CA hasher (db.seq + 1) (rglobFiles target)
    (snapInit db ts) hCA

theorem snapshot_nodup (hasher : Bytes → Digest) (db : DB) (ts : String)
    (target : PathKind) (hU : UniqueBlobs db) :
    UniqueBlobs (snapshot hasher db ts target).1 := by
  rw [UniqueBlobs, snapshot_eq]
  exact foldl_snapStep_nodup hasher (db.seq + 1) (rglobFiles target)
    (snapInit db ts) hU

/-! ## The restore loop -/

theorem fsWrite_self (fs : FS) (p : String) (c : Bytes) :
    fsWrite fs p c p = some c := by
  simp [fsWrite]

theorem fsWrite_ne (fs : FS) {p q : String} (c : Bytes) (h : q ≠ p) :
    fsWrite fs p c q = fs q := by
  simp [fsWrite, h]

theorem restoreStep_ne (db : DB) (fs : FS) (e : String × Digest)
    {p : String} (h : p ≠ e.1) : restoreStep db fs e p = fs p := by
  unfold restoreStep
  cases hf : db.file_data.find? (fun b => b.hash == e.2) with
  | some b => exact fsWrite_ne fs _ h
  | none => rfl

theorem foldl_restoreStep_notMem (db : DB) :
    ∀ (E : List (String × Digest)) (fs : FS) (p : String),
      p ∉ E.map Prod.fst → (E.foldl (restoreStep db) fs) p = fs p
  | [], _, _, _ => rfl
  | e :: E, fs, p, hp => by
    rw [List.map_cons] at hp
    have hne : p ≠ e.1 := fun hc => hp (by rw [hc]; exact List.mem_cons_self _ _)
    rw [List.foldl_cons,
      foldl_restoreStep_notMem db E _ p (fun hc => hp (List.mem_cons_of_mem _ hc))]
    exact restoreStep_ne db fs e hne

theorem foldl_restoreStep_read_some (db : DB) {b : BlobRow} :
    ∀ (E : List (String × Digest)) (fs : FS) (p : String) (h : Digest),
      (E.map Prod.fst).Nodup → (p, h) ∈ E →
      db.file_data.find? (fun x => x.hash == h) = some b →
      (E.foldl (restoreStep db) fs) p = some b.content
  | [], _, _, _, _, hmem, _ => absurd hmem (List.not_mem_nil _)
  | e :: E, fs, p, h, hnd, hmem, hfind => by
    rw [List.map_cons, List.nodup_cons] at hnd
    rw [List.foldl_cons]
    rcases List.mem_cons.mp hmem with he | hE
    · have hp1 : p = e.1 := by rw [← he]
      have hp2 : h = e.2 := by rw [← he]
      have hout : p ∉ E.map Prod.fst := hp1 ▸ hnd.1
      rw [foldl_restoreStep_notMem db E _ p hout]
      unfold restoreStep
      rw [← hp2, hfind, hp1]
      exact fsWrite_self fs e.1 b.content
    · exact foldl_restoreStep_read_some db E _ p h hnd.2 hE hfind

theorem foldl_restoreStep_read_none (db : DB) :
    ∀ (E : List (String × Digest)) (fs : FS) (p : String) (h : Digest),
      (E.map Prod.fst).Nodup → (p, h) ∈ E →
      db.file_data.find? (fun x => x.hash == h) = none →
      (E.foldl (restoreStep db) fs) p = fs p
  | [], _, _, _, _, hmem, _ => absurd hmem (List.not_mem_nil _)
  | e :: E, fs, p, h, hnd, hmem, hfind => by
    rw [List.map_cons, List.nodup_cons] at hnd
    rw [List.foldl_cons]
    rcases List.mem_cons.mp hmem with he | hE
    · have hp1 : p = e.1 := by rw [← he]
      have hp2 : h = e.2 := by rw [← he]
      have hout : p ∉ E.map Prod.fst := hp1 ▸ hnd.1
      rw [foldl_restoreStep_notMem db E _ p hout]
      unfold restoreStep
      rw [← hp2, hfind]
    · have hne : p ≠ e.1 := by
        intro hc
        exact hnd.1 (hc ▸ List.mem_map.mpr ⟨(p, h), hE, rfl⟩)
      rw [foldl_restoreStep_read_none db E _ p h hnd.2 hE hfind]
      exact restoreStep_ne db fs e hne

/-! ## Blob lookup under content addressing -/

theorem find?_blob {hasher : Bytes → Digest} {fd : List BlobRow} {c : Bytes}
    (hInj : Function.Injective hasher)
    (hCA : ∀ b ∈ fd, b.hash = hasher b.content)
    (hex : ∃ b ∈ fd, b.hash = hasher c) :
    ∃ b, fd.find? (fun x => x.hash == hasher c) = some b ∧ b.content = c := by
  obtain ⟨b0, hb0, hb0h⟩ := hex
  have hsome : (fd.find? (fun x => x.hash == hasher c)).isSome :=
    List.find?_isSome.mpr ⟨b0, hb0, by simpa using hb0h⟩
  obtain ⟨b, hb⟩ := Option.isSome_iff_exists.mp hsome
  refine ⟨b, hb, ?_⟩
  have h1 : b.hash = hasher c := by simpa using List.find?_some hb
  have h2 : b.hash = hasher b.content := hCA b (List.mem_of_find?_eq_some hb)
  exact hInj (h2.symm.trans h1)

/-! ## Write order inside one snapshot call -/

theorem chain'_fileThenBlob_snapStep {hasher : Bytes → Digest} {sid : Nat}
    {a : SnapAcc} (pc : String × Bytes)
    (h : List.Chain' fileThenBlob a.tr) :
    List.Chain' fileThenBlob (snapStep hasher sid a pc).tr := by
  rw [snapStep_tr]
  split
  · rw [List.chain'_append]
    refine ⟨h, ?_, ?_⟩
    · refine List.chain'_cons.mpr ⟨?_, List.chain'_singleton _⟩
      exact ⟨sid, pc.1, rfl⟩
    · intro x _ y hy
      simp only [List.head?_cons, Option.mem_def, Option.some.injEq] at hy
      subst hy
      simp [fileThenBlob]
  · rw [List.chain'_append]
    refine ⟨h, List.chain'_singleton _, ?_⟩
    intro x _ y hy
    simp only [List.head?_cons, Option.mem_def, Option.some.injEq] at hy
    subst hy
    simp [fileThenBlob]

theorem foldl_snapStep_chain (hasher : Bytes → Digest) (sid : Nat) :
    ∀ (T : List (String × Bytes)) (a : SnapAcc),
      List.Chain' fileThenBlob a.tr →
      List.Chain' fileThenBlob ((T.foldl (snapStep hasher sid) a).tr)
  | [], _, h => h
  | pc :: T, a, h => by
    rw [List.foldl_cons]
    exact foldl_snapStep_chain hasher sid T _
      (chain'_fileThenBlob_snapStep pc h)

theorem snapshot_tr_chain (hasher : Bytes → Digest) (db : DB) (ts : String)
    (target : PathKind) :
    List.Chain' fileThenBlob (snapshot hasher db ts target).2.2 := by
  rw [snapshot_eq]
  exact foldl_snapStep_chain hasher (db.seq + 1) (rglobFiles target)
    (snapInit db ts) (List.chain'_singleton _)

/-! ## Algebra of the dedup insert -/

theorem put_if_absent_pos {fd : List BlobRow} {h : Digest} (c : Bytes)
    (sz : Nat) (hany : (fd.any (fun b => b.hash == h)) = true) :
    put_if_absent fd h c sz = (fd, false) := by
  rw [put_if_absent, if_pos hany]

theorem put_if_absent_neg {fd : List BlobRow} {h : Digest} (c : Bytes)
    (sz : Nat) (hany : (fd.any (fun b => b.hash == h)) = false) :
    put_if_absent fd h c sz = (fd ++ [⟨h, c, sz⟩], true) := by
  rw [put_if_absent, if_neg (by simp [hany])]

theorem put_if_absent_idem (fd : List BlobRow) (h : Digest) (c : Bytes)
    (sz : Nat) :
    (put_if_absent (put_if_absent fd h c sz).1 h c sz).1
      = (put_if_absent fd h c sz).1 := by
  by_cases hany : (fd.any (fun b => b.hash == h)) = true
  · rw [put_if_absent_pos c sz hany]
    show (put_if_absent fd h c sz).1 = fd
    rw [put_if_absent_pos c sz hany]
  · have hf : (fd.any (fun b => b.hash == h)) = false :=
      Bool.eq_false_iff.mpr hany
    rw [put_if_absent_neg c sz hf]
    show (put_if_absent (fd ++ [⟨h, c, sz⟩]) h c sz).1 = fd ++ [⟨h, c, sz⟩]
    have hany2 : ((fd ++ [(⟨h, c, sz⟩ : BlobRow)]).any
        (fun b => b.hash == h)) = true := by
      simp [List.any_append]
    rw [put_if_absent_pos c sz hany2]

/-! ## The check loop -/

theorem checkLoop_ok (hasher : Bytes → Digest) :
    ∀ fd : List BlobRow, (∀ b ∈ fd, hasher b.content = b.hash) →
      checkLoop hasher fd = CheckResult.ok
  | [], _ => rfl
  | b :: fd, hall => by
    have hb : (hasher b.content == b.hash) = true := by
      simpa using hall b (List.mem_cons_self _ _)
    simp only [checkLoop, hb, if_true]
    exact checkLoop_ok hasher fd fun x hx => hall x (List.mem_cons_of_mem _ hx)

theorem checkLoop_first (hasher : Bytes → Digest) :
    ∀ (pre : List BlobRow) (b : BlobRow) (post : List BlobRow),
      (∀ x ∈ pre, hasher x.content = x.hash) →
      hasher b.content ≠ b.hash →
      checkLoop hasher (pre ++ b :: post) = CheckResult.corrupted b.hash
  | [], b, post, _, hbad => by
    have hb : (hasher b.content == b.hash) = false := by simpa using hbad
    simp [checkLoop, hb]
  | x :: pre, b, post, hpre, hbad => by
    have hx : (hasher x.content == x.hash) = true := by
      simpa using hpre x (List.mem_cons_self _ _)
    simp only [List.cons_append, checkLoop, hx, if_true]
    exact checkLoop_first hasher pre b post
      (fun y hy => hpre y (List.mem_cons_of_mem _ hy)) hbad

theorem checkLoop_unique (hasher : Bytes → Digest) (H : Digest) :
    ∀ fd : List BlobRow,
      (∃ b ∈ fd, b.hash = H ∧ hasher b.content ≠ b.hash) →
      (∀ b ∈ fd, hasher b.content ≠ b.hash → b.hash = H) →
      checkLoop hasher fd = CheckResult.corrupted H
  | [], hex, _ => absurd hex (by simp)
  | b :: fd, hex, hall => by
    by_cases hb : hasher b.content = b.hash
    · have hbt : (hasher b.content == b.hash) = true := by simpa using hb
      simp only [checkLoop, hbt, if_true]
      refine checkLoop_unique hasher H fd ?_
        (fun y hy => hall y (List.mem_cons_of_mem _ hy))
      rcases hex with ⟨x, hx, hxH, hxbad⟩
      rcases List.mem_cons.mp hx with rfl | hx2
      · exact absurd hb hxbad
      · exact ⟨x, hx2, hxH, hxbad⟩
    · have hbH : b.hash = H := hall b (List.mem_cons_self _ _) hb
      have hbf : (hasher b.content == b.hash) = false := by simpa using hb
      simp [checkLoop, hbf]
      exact hbH

/-! ## Lifetime invariants of the store -/

theorem snapshot_SeqBound (hasher : Bytes → Digest) (db : DB) (ts : String)
    (target : PathKind) (hSB : SeqBound db) :
    SeqBound (snapshot hasher db ts target).1 := by
  constructor
  · intro s hs
    rw [snapshot_snapshots] at hs
    rw [snapshot_seq]
    rcases List.mem_append.mp hs with hold | hnew
    · exact Nat.le_succ_of_le (hSB.1 s hold)
    · rw [List.mem_singleton.mp hnew]
  · intro f hf
    rw [snapshot_files] at hf
    rw [snapshot_seq]
    rcases List.mem_append.mp hf with hold | hnew
    · exact Nat.le_succ_of_le (hSB.2 f hold)
    · obtain ⟨pc, _, rfl⟩ := List.mem_map.mp hnew
      exact Nat.le_refl _

theorem snapshot_pairwise (hasher : Bytes → Digest) (db : DB) (ts : String)
    (target : PathKind) (hSB : SeqBound db)
    (hP : (db.snapshots.map (fun s => s.id)).Pairwise (· < ·)) :
    (((snapshot hasher db ts target).1).snapshots.map
      (fun s => s.id)).Pairwise (· < ·) := by
  rw [snapshot_snapshots, List.map_append, List.pairwise_append]
  refine ⟨hP, by simp, ?_⟩
  intro x hx y hy
  obtain ⟨s, hs, rfl⟩ := List.mem_map.mp hx
  simp only [List.map_cons, List.map_nil, List.mem_singleton] at hy
  subst hy
  exact Nat.lt_succ_of_le (hSB.1 s hs)

theorem prune_SeqBound (db : DB) (sid : Nat) (hSB : SeqBound db) :
    SeqBound (prune db sid) := by
  constructor
  · intro s hs
    exact hSB.1 s (List.mem_of_mem_filter hs)
  · intro f hf
    exact hSB.2 f (List.mem_of_mem_filter hf)

theorem prune_pairwise (db : DB) (sid : Nat)
    (hP : (db.snapshots.map (fun s => s.id)).Pairwise (· < ·)) :
    ((prune db sid).snapshots.map (fun s => s.id)).Pairwise (· < ·) :=
  List.Pairwise.sublist (List.Sublist.map _ (List.filter_sublist _)) hP

theorem applyOp_seq_mono (hasher : Bytes → Digest) (db : DB) (op : Op) :
    db.seq ≤ (applyOp hasher db op).seq := by
  cases op with
  | snap ts target =>
    show db.seq ≤ ((snapshot hasher db ts target).1).seq
    rw [snapshot_seq]
    exact Nat.le_succ _
  | pruneOp sid => exact Nat.le_refl _
  | restoreOp sid dest => exact Nat.le_refl _
  | checkOp => exact Nat.le_refl _

theorem foldl_applyOp_seq_mono (hasher : Bytes → Digest) :
    ∀ (ops : List Op) (db : DB),
      db.seq ≤ (ops.foldl (applyOp hasher) db).seq
  | [], _ => Nat.le_refl _
  | op :: ops, db => by
    rw [List.foldl_cons]
    exact Nat.le_trans (applyOp_seq_mono hasher db op)
      (foldl_applyOp_seq_mono hasher ops _)

theorem applyOp_inv (hasher : Bytes → Digest) (db : DB) (op : Op)
    (hSB : SeqBound db)
    (hP : (db.snapshots.map (fun s => s.id)).Pairwise (· < ·)) :
    SeqBound (applyOp hasher db op) ∧
    (((applyOp hasher db op).snapshots).map (fun s => s.id)).Pairwise
      (· < ·) := by
  cases op with
  | snap ts target =>
    exact ⟨snapshot_SeqBound hasher db ts target hSB,
      snapshot_pairwise hasher db ts target hSB hP⟩
  | pruneOp sid =>
    exact ⟨prune_SeqBound db sid hSB, prune_pairwise db sid hP⟩
  | restoreOp sid dest => exact ⟨hSB, hP⟩
  | checkOp => exact ⟨hSB, hP⟩

theorem foldl_applyOp_inv (hasher : Bytes → Digest) :
    ∀ (ops : List Op) (db : DB), SeqBound db →
      (db.snapshots.map (fun s => s.id)).Pairwise (· < ·) →
      SeqBound (ops.foldl (applyOp hasher) db) ∧
      ((ops.foldl (applyOp hasher) db).snapshots.map
        (fun s => s.id)).Pairwise (· < ·)
  | [], _, hSB, hP => ⟨hSB, hP⟩
  | op :: ops, db, hSB, hP => by
    rw [List.foldl_cons]
    obtain ⟨h1, h2⟩ := applyOp_inv hasher db op hSB hP
    exact foldl_applyOp_inv hasher ops _ h1 h2

/-! ## The file rows selected by restore after a snapshot -/

theorem restore_entries_of_snapshot (hasher : Bytes → Digest) (db : DB)
    (ts : String) (T : List (String × Bytes)) (hSB : SeqBound db) :
    ((((snapshot hasher db ts (.dir T)).1).files.filter
        (fun f => f.snapshot_id == (snapshot hasher db ts (.dir T)).2.1)).map
      (fun f => (f.path, f.hash)))
      = T.map (fun pc => (pc.1, hasher pc.2)) := by
  rw [snapshot_sid, snapshot_files]
  have h1 : db.files.filter (fun f => f.snapshot_id == db.seq + 1) = [] :=
    List.filter_eq_nil_iff.mpr (fun f hf => by
      simpa using Nat.ne_of_lt (Nat.lt_succ_of_le (hSB.2 f hf)))
  have h2 : ((rglobFiles (.dir T)).map
        (fun pc => (⟨db.seq + 1, pc.1, hasher pc.2, pc.2.length⟩ : FileRow))).filter
        (fun f => f.snapshot_id == db.seq + 1)
      = (rglobFiles (.dir T)).map
        (fun pc => ⟨db.seq + 1, pc.1, hasher pc.2, pc.2.length⟩) :=
    List.filter_eq_self.mpr (fun r hr => by
      obtain ⟨pc, _, rfl⟩ := List.mem_map.mp hr
      simp)
  rw [List.filter_append, h1, h2, List.nil_append, List.map_map]
  rfl

/-! ## Claims -/

/-- Claim C10: `restore` and `check` never modify the persisted store —
after either call the `snapshots`, `files` and `file_data` relations are
exactly as before (both operations only read the database). -/
theorem restore_check_readonly (hasher : Bytes → Digest) (db : DB)
    (sid : Nat) (dest : FS) :
    (restore db sid dest).1 = db ∧ (check hasher db).1 = db :=
  ⟨rfl, rfl⟩

/-- Claim C4, counterexample: snapshotting a path that does not exist does
not fail with `NotFound` — it creates a new (empty) snapshot record and
returns its id, here id 1 on a fresh store. -/
theorem snapshot_missing_dir_counterexample :
    ¬ (((snapshot (fun b => b) DB.empty "t" PathKind.missing).1).snapshots
        = DB.empty.snapshots) ∧
    (snapshot (fun b => b) DB.empty "t" PathKind.missing).2.1 = 1 := by
  exact ⟨by decide, rfl⟩

/-- Claim C4, amended: `snapshot` performs no existence or directory check;
for a source path that does not exist or is not a directory, the `rglob`
walk enumerates nothing, so the call succeeds and creates and returns a
fresh empty snapshot (a new snapshot row and id, no `files` rows, no new
blobs). -/
theorem snapshot_missing_dir_amended (hasher : Bytes → Digest) (db : DB)
    (ts : String) (target : PathKind)
    (htarget : target = PathKind.missing ∨ ∃ c, target = PathKind.file c) :
    (snapshot hasher db ts target).2.1 = db.seq + 1 ∧
    ((snapshot hasher db ts target).1).snapshots
      = db.snapshots ++ [⟨db.seq + 1, ts⟩] ∧
    ((snapshot hasher db ts target).1).files = db.files ∧
    ((snapshot hasher db ts target).1).file_data = db.file_data := by
  have hr : rglobFiles target = [] := by
    rcases htarget with h | ⟨c, h⟩ <;> rw [h] <;> rfl
  refine ⟨rfl, snapshot_snapshots hasher db ts target, ?_, ?_⟩
  · rw [snapshot_files, hr]
    simp
  · rw [snapshot_eq, hr]
    rfl

/-- Witness for the amended C4, at a fresh store and a missing path. -/
theorem snapshot_missing_dir_amended_witness :
    ((snapshot (fun b => b) DB.empty "t" PathKind.missing).1).files
      = DB.empty.files :=
  (snapshot_missing_dir_amended (fun b => b) DB.empty "t" PathKind.missing
    (Or.inl rfl)).2.2.1

/-- Claim C2, counterexample: in the write trace of snapshotting a fresh
one-file tree, the `files`-row insert happens with no blob for its digest
in the store and no earlier blob insert in the trace — the code writes the
FileEntry before the blob, not after. -/
theorem blob_before_fileEntry_counterexample :
    ¬ BlobBeforeFile DB.empty
      (snapshot (fun b => b) DB.empty "t"
        (PathKind.dir [("a", [1])])).2.2 := by
  intro hcl
  rcases hcl [WEvent.insSnap 1 "t"] 1 "a" [1] 1 [WEvent.insBlob [1] [1] 1]
      rfl with ⟨b, hb, _⟩ | ⟨c, sz2, hmem⟩
  · exact absurd hb (List.not_mem_nil _)
  · simp at hmem

/-- Claim C2, amended: the code's write order per file is the reverse of
the claimed one — the FileEntry insert comes first and the blob
insert-if-absent immediately after it (every blob-insert event directly
follows the `files`-insert event carrying the same digest) — but all
writes of one `snapshot` call belong to a single committed transaction, so
in the committed store every FileEntry digest still names an existing
blob. -/
theorem fileEntry_before_blob (hasher : Bytes → Digest) (db : DB)
    (ts : String) (target : PathKind) :
    List.Chain' fileThenBlob (snapshot hasher db ts target).2.2 ∧
    (RefIntegrity db → RefIntegrity (snapshot hasher db ts target).1) := by
  refine ⟨snapshot_tr_chain hasher db ts target, ?_⟩
  intro hRI f hf
  rw [snapshot_files] at hf
  rcases List.mem_append.mp hf with hold | hnew
  · obtain ⟨b, hb, hbh⟩ := hRI f hold
    exact ⟨b, snapshot_fd_mono hasher db ts target hb, hbh⟩
  · obtain ⟨pc, hpc, rfl⟩ := List.mem_map.mp hnew
    obtain ⟨b, hb, hbh⟩ := snapshot_present hasher db ts target hpc
    exact ⟨b, hb, hbh⟩

/-- Witness for the amended C2, on a fresh store and a one-file tree. -/
theorem fileEntry_before_blob_witness :
    RefIntegrity (snapshot (fun b => b) DB.empty "t"
      (PathKind.dir [("a", [1])])).1 :=
  (fileEntry_before_blob (fun b => b) DB.empty "t"
    (PathKind.dir [("a", [1])])).2 (fun f hf => absurd hf (List.not_mem_nil f))

/-- Claim C7: `check` re-hashes every stored blob in scan order and is
fail-fast — if no blob is corrupted it reports success; it reports the
digest of the first blob whose bytes no longer hash to its key; and when
exactly one digest `H` is corrupted it reports corruption for `H` and for
no other digest. -/
theorem check_first_corruption (hasher : Bytes → Digest) (db : DB) :
    ((∀ b ∈ db.file_data, hasher b.content = b.hash) →
      (check hasher db).2 = CheckResult.ok) ∧
    (∀ pre b post, db.file_data = pre ++ b :: post →
      (∀ x ∈ pre, hasher x.content = x.hash) →
      hasher b.content ≠ b.hash →
      (check hasher db).2 = CheckResult.corrupted b.hash) ∧
    (∀ H : Digest,
      (∃ b ∈ db.file_data, b.hash = H ∧ hasher b.content ≠ b.hash) →
      (∀ b ∈ db.file_data, hasher b.content ≠ b.hash → b.hash = H) →
      (check hasher db).2 = CheckResult.corrupted H) := by
  refine ⟨fun hall => checkLoop_ok hasher _ hall, ?_,
    fun H hex hall => checkLoop_unique hasher H _ hex hall⟩
  intro pre b post hsplit hpre hbad
  show checkLoop hasher db.file_data = _
  rw [hsplit]
  exact checkLoop_first hasher pre b post hpre hbad

/-- Witness for C7: a store whose only blob (key `[5]`) holds bytes `[6]`
that no longer hash to it is reported as corrupted at `[5]`. -/
theorem check_first_corruption_witness :
    (check (fun b => b)
      (⟨1, [⟨1, "t"⟩], [], [⟨[5], [6], 1⟩]⟩ : DB)).2
      = CheckResult.corrupted [5] :=
  (check_first_corruption (fun b => b) _).2.2 [5] (by decide) (by decide)

/-- Claim C6: `prune sid` removes the snapshot row with id `sid` and every
`files` row with that snapshot id, keeps all other snapshot and file rows,
leaves the blob table untouched (so every blob is still retrievable and
`check` returns exactly what it returned before), and pruning an id with
no snapshot row and no file rows (as foreign keys guarantee for a
non-existent id) is a no-op on the store. -/
theorem prune_postcondition (hasher : Bytes → Digest) (db : DB)
    (sid : Nat) :
    (∀ s ∈ (prune db sid).snapshots, s.id ≠ sid) ∧
    (∀ f ∈ (prune db sid).files, f.snapshot_id ≠ sid) ∧
    (∀ s ∈ db.snapshots, s.id ≠ sid → s ∈ (prune db sid).snapshots) ∧
    (∀ f ∈ db.files, f.snapshot_id ≠ sid → f ∈ (prune db sid).files) ∧
    ((prune db sid).file_data = db.file_data) ∧
    ((check hasher (prune db sid)).2 = (check hasher db).2) ∧
    ((∀ s ∈ db.snapshots, s.id ≠ sid) →
      (∀ f ∈ db.files, f.snapshot_id ≠ sid) → prune db sid = db) := by
  refine ⟨?_, ?_, ?_, ?_, rfl, rfl, ?_⟩
  · intro s hs
    simpa using (List.mem_filter.mp hs).2
  · intro f hf
    simpa using (List.mem_filter.mp hf).2
  · intro s hs hne
    exact List.mem_filter.mpr ⟨hs, by simpa using hne⟩
  · intro f hf hne
    exact List.mem_filter.mpr ⟨hf, by simpa using hne⟩
  · intro h1 h2
    have e1 : db.snapshots.filter (fun s => !(s.id == sid)) = db.snapshots :=
      List.filter_eq_self.mpr (fun s hs => by simpa using h1 s hs)
    have e2 : db.files.filter (fun f => !(f.snapshot_id == sid)) = db.files :=
      List.filter_eq_self.mpr (fun f hf => by simpa using h2 f hf)
    rw [prune, e1, e2]

/-- Witness for C6: pruning the only snapshot of a one-snapshot store with
one blob; the non-existent id 2 is then a no-op. -/
theorem prune_postcondition_witness :
    (prune (⟨1, [⟨1, "t"⟩], [⟨1, "p", [7], 1⟩], [⟨[7], [7], 1⟩]⟩ : DB) 2
      = (⟨1, [⟨1, "t"⟩], [⟨1, "p", [7], 1⟩], [⟨[7], [7], 1⟩]⟩ : DB)) :=
  (prune_postcondition (fun b => b)
    (⟨1, [⟨1, "t"⟩], [⟨1, "p", [7], 1⟩], [⟨[7], [7], 1⟩]⟩ : DB)
    2).2.2.2.2.2.2 (by decide) (by decide)

/-- Claim C8: `list_snapshots` produces one row `(id, timestamp,
total_size)` per existing snapshot, in strictly ascending id order (given
the ascending-id invariant every reachable store satisfies), where
`total_size` is the sum of the sizes of that snapshot's `files` rows and
is `0` for a snapshot with no files; conversely every row comes from an
existing snapshot. -/
theorem list_snapshots_rows (db : DB)
    (hasc : (db.snapshots.map (fun s => s.id)).Pairwise (· < ·)) :
    ((list_snapshots db).map (fun r => r.1)).Pairwise (· < ·) ∧
    (list_snapshots db).length = db.snapshots.length ∧
    (∀ s ∈ db.snapshots,
      (s.id, s.timestamp,
        ((db.files.filter (fun f => f.snapshot_id == s.id)).map
          (fun f => f.size)).sum) ∈ list_snapshots db) ∧
    (∀ s ∈ db.snapshots, (∀ f ∈ db.files, f.snapshot_id ≠ s.id) →
      (s.id, s.timestamp, 0) ∈ list_snapshots db) ∧
    (∀ r ∈ list_snapshots db, ∃ s ∈ db.snapshots,
      r.1 = s.id ∧ r.2.1 = s.timestamp) := by
  refine ⟨?_, ?_, ?_, ?_, ?_⟩
  · rw [list_snapshots, List.map_map]
    exact hasc
  · rw [list_snapshots, List.length_map]
  · intro s hs
    exact List.mem_map.mpr ⟨s, hs, rfl⟩
  · intro s hs hno
    have hfil : db.files.filter (fun f => f.snapshot_id == s.id) = [] :=
      List.filter_eq_nil_iff.mpr (fun f hf => by simpa using hno f hf)
    have h0 : ((db.files.filter (fun f => f.snapshot_id == s.id)).map
        (fun f => f.size)).sum = 0 := by
      rw [hfil]
      rfl
    rw [← h0]
    exact List.mem_map.mpr ⟨s, hs, rfl⟩
  · intro r hr
    rw [list_snapshots] at hr
    obtain ⟨s, hs, rfl⟩ := List.mem_map.mp hr
    exact ⟨s, hs, rfl, rfl⟩

/-- Witness for C8: a store with two snapshots, the first holding one
5-byte file, the second empty. -/
theorem list_snapshots_rows_witness :
    (list_snapshots
      (⟨2, [⟨1, "a"⟩, ⟨2, "b"⟩], [⟨1, "p", [1], 5⟩], [⟨[1], [1], 5⟩]⟩ : DB)).length
      = (⟨2, [⟨1, "a"⟩, ⟨2, "b"⟩], [⟨1, "p", [1], 5⟩], [⟨[1], [1], 5⟩]⟩ : DB).snapshots.length :=
  (list_snapshots_rows _ (by decide)).2.1

/-- Claim C9: snapshot ids are unique and strictly increasing across the
store's lifetime: a snapshot taken after any interleaving of further
operations — including pruning earlier snapshots, even the one with the
highest id — allocates a strictly greater id than an earlier snapshot,
because the AUTOINCREMENT sequence never decreases; and every operation
preserves the invariant that the stored ids are strictly ascending (hence
unique) and bounded by the sequence. -/
theorem snapshot_ids_monotone (hasher : Bytes → Digest) (db : DB)
    (ts ts2 : String) (target target2 : PathKind) (ops : List Op) :
    (snapshot hasher db ts target).2.1 <
      (snapshot hasher
        (ops.foldl (applyOp hasher) (snapshot hasher db ts target).1)
        ts2 target2).2.1 ∧
    (SeqBound db → (db.snapshots.map (fun s => s.id)).Pairwise (· < ·) →
      SeqBound (ops.foldl (applyOp hasher) db) ∧
      ((ops.foldl (applyOp hasher) db).snapshots.map
        (fun s => s.id)).Pairwise (· < ·) ∧
      ((ops.foldl (applyOp hasher) db).snapshots.map
        (fun s => s.id)).Nodup) := by
  constructor
  · rw [snapshot_sid, snapshot_sid]
    have h1 : ((snapshot hasher db ts target).1).seq ≤
        (ops.foldl (applyOp hasher) (snapshot hasher db ts target).1).seq :=
      foldl_applyOp_seq_mono hasher ops _
    rw [snapshot_seq] at h1
    exact Nat.lt_succ_of_le h1
  · intro hSB hP
    obtain ⟨hg1, hg2⟩ := foldl_applyOp_inv hasher ops db hSB hP
    exact ⟨hg1, hg2, hg2.imp (fun h => Nat.ne_of_lt h)⟩

/-- Witness for C9: pruning the only snapshot between two snapshot calls on
a fresh store still yields a strictly larger second id; invariants hold. -/
theorem snapshot_ids_monotone_witness :
    (snapshot (fun b => b) DB.empty "a" PathKind.missing).2.1 <
      (snapshot (fun b => b)
        (([Op.pruneOp 1] : List Op).foldl (applyOp (fun b => b))
          (snapshot (fun b => b) DB.empty "a" PathKind.missing).1)
        "b" PathKind.missing).2.1 ∧
    ((([Op.pruneOp 1] : List Op).foldl (applyOp (fun b => b))
      DB.empty).snapshots.map (fun s => s.id)).Nodup :=
  ⟨(snapshot_ids_monotone (fun b => b) DB.empty "a" "b" PathKind.missing
      PathKind.missing [Op.pruneOp 1]).1,
    ((snapshot_ids_monotone (fun b => b) DB.empty "a" "b" PathKind.missing
      PathKind.missing [Op.pruneOp 1]).2
      ⟨fun s hs => absurd hs (List.not_mem_nil s),
        fun f hf => absurd hf (List.not_mem_nil f)⟩
      List.Pairwise.nil).2.2⟩

theorem nodup_count_le_one {α : Type} [BEq α] [LawfulBEq α] :
    ∀ {l : List α}, l.Nodup → ∀ a : α, l.count a ≤ 1
  | [], _, a => by simp
  | x :: l, h, a => by
    rw [List.nodup_cons] at h
    rw [List.count_cons]
    cases hax : (x == a) with
    | true =>
      have hxl : a ∉ l := by
        intro hal
        exact h.1 ((eq_of_beq hax) ▸ hal)
      rw [List.count_eq_zero.mpr hxl]
      simp
    | false =>
      simpa using nodup_count_le_one h.2 a

/-- Claim C3: dedup and idempotent insert — snapshotting a file with
content `c` in one call and again (same or another path) in a second call
leaves exactly one blob row keyed by `c`'s digest; digest uniqueness is
preserved; and `put_if_absent` applied twice with the same digest leaves
the same blob table as applying it once. -/
theorem dedup_single_blob (hasher : Bytes → Digest) (db : DB)
    (ts1 ts2 : String) (T1 T2 : List (String × Bytes)) (p1 p2 : String)
    (c : Bytes) (hU : UniqueBlobs db) (h1 : (p1, c) ∈ T1)
    (_h2 : (p2, c) ∈ T2) :
    UniqueBlobs
      (snapshot hasher (snapshot hasher db ts1 (.dir T1)).1 ts2
        (.dir T2)).1 ∧
    ((((snapshot hasher (snapshot hasher db ts1 (.dir T1)).1 ts2
        (.dir T2)).1).file_data.map (fun b => b.hash)).count (hasher c)
      = 1) ∧
    (∀ (fd : List BlobRow) (h : Digest) (c2 : Bytes) (sz : Nat),
      (put_if_absent (put_if_absent fd h c2 sz).1 h c2 sz).1
        = (put_if_absent fd h c2 sz).1) := by
  have hU1 := snapshot_nodup hasher db ts1 (.dir T1) hU
  have hU2 := snapshot_nodup hasher _ ts2 (.dir T2) hU1
  refine ⟨hU2, ?_, fun fd h c2 sz => put_if_absent_idem fd h c2 sz⟩
  obtain ⟨b, hb, hbh⟩ :=
    snapshot_present hasher db ts1 (.dir T1) (show (p1, c) ∈ rglobFiles (.dir T1) from h1)
  have hb2 := snapshot_fd_mono hasher _ ts2 (.dir T2) hb
  have hmem : hasher c ∈
      (((snapshot hasher (snapshot hasher db ts1 (.dir T1)).1 ts2
        (.dir T2)).1).file_data.map (fun b => b.hash)) :=
    List.mem_map.mpr ⟨b, hb2, hbh⟩
  have hle := nodup_count_le_one hU2 (hasher c)
  have hpos := List.count_pos_iff.mpr hmem
  exact Nat.le_antisymm hle hpos

/-- Witness for C3: the same one-byte content snapshotted under two paths
in two calls on a fresh store leaves one blob row for it. -/
theorem dedup_single_blob_witness :
    (((snapshot (fun b => b)
        (snapshot (fun b => b) DB.empty "a" (.dir [("x", [9])])).1 "b"
        (.dir [("y", [9])])).1).file_data.map (fun b => b.hash)).count [9]
      = 1 :=
  (dedup_single_blob (fun b => b) DB.empty "a" "b" [("x", [9])]
    [("y", [9])] "x" "y" [9] List.nodup_nil (by decide) (by decide)).2.1

/-- Claim C5, counterexample: restoring snapshot 1 of `dbDangling`, whose
entry `bad` has a digest with no blob, skips that file and keeps writing
the others — but surfaces no diagnostic: the printed output is exactly the
unconditional summary line, with no message about the skipped file. -/
theorem restore_missing_blob_counterexample :
    (∃ f ∈ dbDangling.files, f.snapshot_id = 1 ∧
      dbDangling.file_data.find? (fun x => x.hash == f.hash) = none) ∧
    (restore dbDangling 1 fsEmpty).2.2 = [restoreMsg 1] ∧
    ¬ (∃ m ∈ (restore dbDangling 1 fsEmpty).2.2, m ≠ restoreMsg 1) ∧
    ((restore dbDangling 1 fsEmpty).2.1) "bad" = none ∧
    ((restore dbDangling 1 fsEmpty).2.1) "good" = some [7] := by
  refine ⟨⟨⟨1, "bad", [9], 1⟩, by decide, rfl, by decide⟩, rfl, ?_, rfl, rfl⟩
  rintro ⟨m, hm, hne⟩
  exact hne (List.mem_singleton.mp hm)

/-- Claim C5, amended: a FileEntry whose digest has no blob is skipped
silently — no diagnostic is surfaced (the output is always exactly the one
summary line) — while the restore is still best-effort per file: every
entry whose digest has a stored blob is written with that blob's bytes,
and the path of a skipped entry is left exactly as it was in the
destination. -/
theorem restore_best_effort (db : DB) (sid : Nat) (dest : FS)
    (hND : ((db.files.filter (fun f => f.snapshot_id == sid)).map
      (fun f => f.path)).Nodup) :
    (restore db sid dest).2.2 = [restoreMsg sid] ∧
    ∀ f ∈ db.files, f.snapshot_id = sid →
      (∀ b, db.file_data.find? (fun x => x.hash == f.hash) = some b →
        ((restore db sid dest).2.1) f.path = some b.content) ∧
      (db.file_data.find? (fun x => x.hash == f.hash) = none →
        ((restore db sid dest).2.1) f.path = dest f.path) := by
  refine ⟨rfl, ?_⟩
  intro f hf hsid
  have hmem : (f.path, f.hash) ∈
      (db.files.filter (fun x => x.snapshot_id == sid)).map
        (fun x => (x.path, x.hash)) :=
    List.mem_map.mpr ⟨f, List.mem_filter.mpr ⟨hf, by simpa using hsid⟩, rfl⟩
  have hnd2 : (((db.files.filter (fun x => x.snapshot_id == sid)).map
      (fun x => (x.path, x.hash))).map Prod.fst).Nodup := by
    rw [List.map_map]
    exact hND
  constructor
  · intro b hb
    exact foldl_restoreStep_read_some db _ dest f.path f.hash hnd2 hmem hb
  · intro hb
    exact foldl_restoreStep_read_none db _ dest f.path f.hash hnd2 hmem hb

/-- Witness for the amended C5, on `dbDangling`: the entry with a stored
blob is written, the dangling one leaves its path untouched. -/
theorem restore_best_effort_witness :
    ((restore dbDangling 1 fsEmpty).2.1) "good" = some [7] ∧
    ((restore dbDangling 1 fsEmpty).2.1) "bad" = fsEmpty "bad" :=
  ⟨((restore_best_effort dbDangling 1 fsEmpty (by decide)).2
      ⟨1, "good", [7], 1⟩ (by decide) rfl).1 ⟨[7], [7], 1⟩ (by decide),
    ((restore_best_effort dbDangling 1 fsEmpty (by decide)).2
      ⟨1, "bad", [9], 1⟩ (by decide) rfl).2 (by decide)⟩

/-- Claim C1: round trip — for a directory tree `T` of regular files with
distinct relative paths, restoring the snapshot just taken of `T` into an
empty destination yields exactly the files of `T`: the same relative
paths, each with byte-identical content (for arbitrary byte contents),
assuming the digest is collision-free on the contents involved and the
pre-existing store is content-addressed and well-formed. -/
theorem snapshot_restore_roundTrip (hasher : Bytes → Digest) (db : DB)
    (ts : String) (T : List (String × Bytes))
    (hInj : Function.Injective hasher) (hCA : ContentAddressed hasher db)
    (hSB : SeqBound db) (hND : (T.map Prod.fst).Nodup) :
    ∀ p : String,
      ((restore (snapshot hasher db ts (.dir T)).1
        (snapshot hasher db ts (.dir T)).2.1 fsEmpty).2.1) p
        = treeLookup T p := by
  intro p
  show ((((snapshot hasher db ts (.dir T)).1).files.filter
      (fun f => f.snapshot_id == (snapshot hasher db ts (.dir T)).2.1)).map
    (fun f => (f.path, f.hash))).foldl
      (restoreStep (snapshot hasher db ts (.dir T)).1) fsEmpty p
    = treeLookup T p
  rw [restore_entries_of_snapshot hasher db ts T hSB]
  have hndE : ((T.map (fun pc => (pc.1, hasher pc.2))).map Prod.fst).Nodup := by
    rw [List.map_map]
    exact hND
  cases hL : T.find? (fun e => e.1 == p) with
  | none =>
    have hout : p ∉ (T.map (fun pc => (pc.1, hasher pc.2))).map Prod.fst := by
      rw [List.map_map]
      intro hp
      obtain ⟨e, he, hep⟩ := List.mem_map.mp hp
      exact (List.find?_eq_none.mp hL e he) (by simpa using hep)
    have hpres := foldl_restoreStep_notMem
      ((snapshot hasher db ts (.dir T)).1)
      (T.map (fun pc => (pc.1, hasher pc.2))) fsEmpty p hout
    rw [hpres, treeLookup, hL]
    rfl
  | some e =>
    have hep : e.1 = p := by simpa using List.find?_some hL
    have heT : e ∈ T := List.mem_of_find?_eq_some hL
    have hmem : (p, hasher e.2) ∈ T.map (fun pc => (pc.1, hasher pc.2)) :=
      List.mem_map.mpr ⟨e, heT, by rw [hep]⟩
    obtain ⟨b, hfind, hcont⟩ := find?_blob hInj
      (snapshot_CA hasher db ts (.dir T) hCA)
      (snapshot_present hasher db ts (.dir T) heT)
    have hread := foldl_restoreStep_read_some
      ((snapshot hasher db ts (.dir T)).1)
      (T.map (fun pc => (pc.1, hasher pc.2))) fsEmpty p (hasher e.2)
      hndE hmem hfind
    rw [hread, hcont, treeLookup, hL]
    rfl

/-- Witness for C1: a two-file tree (one text-like, one binary-like
content) snapshotted on a fresh store and restored into an empty
directory reproduces the content at path `a`. -/
theorem snapshot_restore_roundTrip_witness :
    ((restore (snapshot (fun b => b) DB.empty "t"
        (.dir [("a", [1, 2]), ("b", [0, 255, 7])])).1
      (snapshot (fun b => b) DB.empty "t"
        (.dir [("a", [1, 2]), ("b", [0, 255, 7])])).2.1 fsEmpty).2.1) "a"
      = treeLookup [("a", [1, 2]), ("b", [0, 255, 7])] "a" :=
  snapshot_restore_roundTrip (fun b => b) DB.empty "t"
    [("a", [1, 2]), ("b", [0, 255, 7])] (fun x y h => h)
    (fun b hb => absurd hb (List.not_mem_nil b))
    ⟨fun s hs => absurd hs (List.not_mem_nil s),
      fun f hf => absurd hf (List.not_mem_nil f)⟩
    (by decide) "a"
